import Mathlib

/-!
Verification development for the FEdensity proof-of-concept polyhedron
clipper (`clipping4.py`).  The numeric type of the source (IEEE double)
is embedded as exact rationals ℚ; all comparisons of the source are
either exact or of the form `norm v < eps` / `norm v > eps`, which are
embedded sqrt-free as `normSq v < eps^2` / `normSq v > eps^2` (an exact
equivalence since both sides are nonnegative).  Python `assert` failures
are embedded as `Except.error`; in-place mutation is embedded by explicit
state passing.
-/

set_option synthInstance.maxSize 1024

namespace FEdensity

/-- A 3-vector, mirroring the `np.array([x,y,z])` values of the source. -/
abbrev Vec3 := ℚ × ℚ × ℚ

/-- A vertex is a point value (`Vertex = [x,y,z]` in the source). -/
abbrev Vertex := Vec3

/-- An edge is an ordered pair of vertices (`Edge = [Vertex,Vertex]`). -/
abbrev Edge := Vertex × Vertex

/-- A face is a list of edges (`Face = [Edge,...]`). -/
abbrev Face := List Edge

/-- A polyhedron is its list of faces (`self.faces`). -/
abbrev Polyhedron := List Face

/-- `epsilon = 1e-10` from the source. -/
def epsilon : ℚ := 1 / 10 ^ 10

/-- Componentwise subtraction `a - b`. -/
def vsub (a b : Vec3) : Vec3 := (a.1 - b.1, a.2.1 - b.2.1, a.2.2 - b.2.2)

/-- Componentwise addition `a + b`. -/
def vadd (a b : Vec3) : Vec3 := (a.1 + b.1, a.2.1 + b.2.1, a.2.2 + b.2.2)

/-- Scalar multiplication `c * a`. -/
def smul (c : ℚ) (a : Vec3) : Vec3 := (c * a.1, c * a.2.1, c * a.2.2)

/-- `np.dot a b`. -/
def dot (a b : Vec3) : ℚ := a.1 * b.1 + a.2.1 * b.2.1 + a.2.2 * b.2.2

/-- `np.cross a b`. -/
def cross (a b : Vec3) : Vec3 :=
  (a.2.1 * b.2.2 - a.2.2 * b.2.1,
   a.2.2 * b.1 - a.1 * b.2.2,
   a.1 * b.2.1 - a.2.1 * b.1)

/-- Squared euclidean norm; `np.linalg.norm v` is `Real.sqrt (normSq v)`. -/
def normSq (a : Vec3) : ℚ := dot a a

/-- `vertices_equal a b`, i.e. `np.linalg.norm(a-b) < epsilon`,
embedded sqrt-free as `normSq (a-b) < epsilon^2`. -/
def vertices_equal (a b : Vec3) : Bool := normSq (vsub a b) < epsilon ^ 2

/-- `vertex_in_list(vertex, edge)` of the source applied to an edge. -/
def vertex_in_edge (v : Vec3) (e : Edge) : Bool :=
  vertices_equal e.1 v || vertices_equal e.2 v

/-- `vertex_in_list(vertex, lst)` of the source applied to a vertex list. -/
def vertex_in_list (v : Vec3) (l : List Vec3) : Bool :=
  l.any (fun x => vertices_equal x v)

/-- Squared `edge_length`; `edge_length e > epsilon` is embedded as
`edge_lengthSq e > epsilon^2`. -/
def edge_lengthSq (e : Edge) : ℚ := normSq (vsub e.1 e.2)

/-- The two `assert`s of the clipping code that can actually fail on
values: the trimmed-edge length post-condition inside `update_edge`,
and the `len(new_edge)==0 or len(new_edge)==2` check inside `clip`. -/
inductive GeomError where
  | shortEdge : GeomError
  | badCapCount : GeomError
deriving DecidableEq, Repr

/-- `update_edge(edge, p, n)` of the source.  Returns the pair
(edge-or-none, new-vertex-or-none); the `assert edge_length(edge)>epsilon`
after trimming becomes `Except.error .shortEdge`. -/
def update_edge (edge : Edge) (p n : Vec3) : Except GeomError (Option Edge × Option Vertex) :=
  let v1 := edge.1
  let v2 := edge.2
  let v1_normal := dot (vsub v1 p) n
  let v2_normal := dot (vsub v2 p) n
  if v1_normal > -epsilon ∧ v2_normal > -epsilon then .ok (none, none)
  else if v1_normal ≤ -epsilon ∧ v2_normal ≤ -epsilon then .ok (some edge, none)
  else if v1_normal > -epsilon ∧ v1_normal ≤ epsilon then .ok (some edge, some v1)
  else if v2_normal > -epsilon ∧ v2_normal ≤ epsilon then .ok (some edge, some v2)
  else
    let edge_normal := dot (vsub v2 v1) n
    let alpha := -v1_normal / edge_normal
    let v_new := vadd v1 (smul alpha (vsub v2 v1))
    let edge' : Edge := if v1_normal > epsilon then (v_new, v2) else (v1, v_new)
    if edge_lengthSq edge' > epsilon ^ 2 then .ok (some edge', some v_new)
    else .error .shortEdge

/-- The inner loop of `Polyhedron.clip` over one face's edges.  The source
iterates the edge list in reverse, popping discarded edges in place and
appending each non-`None` new vertex to `new_edge`; hence kept edges stay
in list order while the collected cap vertices appear in reverse edge
order. -/
def clipEdges (p n : Vec3) : List Edge → Except GeomError (List Edge × List Vertex)
  | [] => .ok ([], [])
  | e :: es =>
    match clipEdges p n es with
    | .error err => .error err
    | .ok (kept, cands) =>
      match update_edge e p n with
      | .error err => .error err
      | .ok (oe, ov) =>
        .ok ((match oe with | none => kept | some e' => e' :: kept),
             (match ov with | none => cands | some v => cands ++ [v]))

/-- The per-face body of `Polyhedron.clip`: run `clipEdges`, enforce
`assert len(new_edge)==0 or len(new_edge)==2`, and when two cap vertices
were collected whose separation exceeds `epsilon`, append the joining
edge to the face and also hand a copy of it up to the caller for the
polyhedron-wide `new_face` accumulator. -/
def processFace (p n : Vec3) (f : Face) : Except GeomError (Face × Option Edge) :=
  match clipEdges p n f with
  | .error err => .error err
  | .ok (kept, cands) =>
    match cands with
    | [] => .ok (kept, none)
    | [a, b] =>
      if edge_lengthSq (a, b) > epsilon ^ 2 then .ok (kept ++ [(a, b)], some (a, b))
      else .ok (kept, none)
    | _ => .error .badCapCount

/-- The outer loop of `Polyhedron.clip` over the faces.  The source
iterates the face list in reverse, popping emptied faces in place and
appending each face's cap contribution to `new_face`; hence surviving
faces stay in list order while the cap edges appear in reverse face
order. -/
def clipFaces (p n : Vec3) : List Face → Except GeomError (List Face × List Edge)
  | [] => .ok ([], [])
  | f :: fs =>
    match clipFaces p n fs with
    | .error err => .error err
    | .ok (fs', caps) =>
      match processFace p n f with
      | .error err => .error err
      | .ok (f', cap?) =>
        .ok ((if f' = [] then fs' else f' :: fs'),
             (match cap? with | none => caps | some c => caps ++ [c]))

/-- `Polyhedron.clip(p, n)`: clip all faces, then append the accumulated
`new_face` as a new cap face exactly when it holds more than 2 edges.
The final `assert self.vertices_are_unique()` is an object-identity
check which always passes under the source's copy discipline (every
stored vertex is deep-copied or freshly allocated); see `clipT` below
for the identity-instrumented model. -/
def clip (P : Polyhedron) (p n : Vec3) : Except GeomError Polyhedron :=
  match clipFaces p n P with
  | .error err => .error err
  | .ok (faces, caps) =>
    .ok (if caps.length > 2 then faces ++ [caps] else faces)

/-- `Polyhedron.__init__(v0,v1,v2,v3)`: the six pairwise edges in the
order produced by `combinations(vertices, 2)`, grouped into four faces
by the fixed table `[[3,4,5],[1,2,5],[0,2,4],[0,1,3]]`; each face slot
holds a deep copy, i.e. an independent value. -/
def construct (a b c d : Vec3) : Polyhedron :=
  let e0 : Edge := (a, b)
  let e1 : Edge := (a, c)
  let e2 : Edge := (a, d)
  let e3 : Edge := (b, c)
  let e4 : Edge := (b, d)
  let e5 : Edge := (c, d)
  [[e3, e4, e5], [e1, e2, e5], [e0, e2, e4], [e0, e1, e3]]

/-- `find_other_edge(face, edge, vertex)`: the first edge of the face,
other than the current one (object identity, modelled by index), having
`vertex` among its endpoints within tolerance.  Returns the index and
the edge. -/
def find_other_edge (f : Face) (cur : Nat) (v : Vec3) : Option (Nat × Edge) :=
  f.enum.find? (fun je => je.1 ≠ cur && vertex_in_edge v je.2)

/-- One endpoint of an edge selected by a slot flag (`false` = firstscope). -/
def slotVal (e : Edge) (s : Bool) : Vec3 := if s then e.2 else e.1

/-- The body of `extract_face_vertices`: walk from edge to edge through
shared endpoints.  `find_other_vertex` picks the other endpoint by the
exact test `np.all(edge[0]==vertex)`; the loop stops when the walk
returns to the very first vertex object, i.e. to slot 0 of edge 0.
Fuel bounds the source's unbounded `while True` (which diverges or
crashes on malformed faces, embedded as `none`). -/
def extractGo (f : Face) : Nat → Nat → Bool → List Vec3 → Option (List Vec3)
  | 0, _, _, _ => none
  | fuel + 1, cur, slot, acc =>
    match f.get? cur with
    | none => none
    | some e =>
      let v := slotVal e slot
      let acc' := acc ++ [v]
      match find_other_edge f cur v with
      | none => none
      | some (j, e2) =>
        let slot' : Bool := e2.1 = v
        if j = 0 ∧ slot' = false then some acc'
        else extractGo f fuel j slot' acc'

/-- `extract_face_vertices(face)`: the face's boundary as an ordered
vertex list.  A well-formed cycle of `k` edges terminates in exactly `k`
steps; `2*k+1` steps of fuel cover every terminating walk (the walk
state space has `2*k` elements). -/
def extract_face_vertices (f : Face) : Option (List Vec3) :=
  extractGo f (2 * f.length + 1) 0 false []

/-- The fan contribution of one face loop in `Polyhedron.volume`:
`b = face_vertices[0]` and for `i` in `1 .. len-2`,
`abs(dot(a - d, cross(b - d, c - d)))` with `c = fv[i]`, `d = fv[i+1]`. -/
def faceContrib (a : Vec3) (loop : List Vec3) : ℚ :=
  match loop with
  | [] => 0
  | b :: rest =>
    ((rest.zip (rest.drop 1)).map
      (fun cd => |dot (vsub a cd.2) (cross (vsub b cd.2) (vsub cd.1 cd.2))|)).sum

/-- `Polyhedron.volume()`: 0 for an empty face list; otherwise the
reference vertex is `faces[0][0][0]` and every face whose loop does not
contain it contributes its fan of absolute scalar triple products; the
total is scaled by `1/6`.  `none` embeds the source crashing or hanging
(empty first face, or a malformed face in `extract_face_vertices`). -/
def volume (P : Polyhedron) : Option ℚ :=
  match P with
  | [] => some 0
  | [] :: _ => none
  | (e0 :: _) :: _ =>
    let a := e0.1
    match P.mapM extract_face_vertices with
    | none => none
    | some loops =>
      some (((loops.map
        (fun lp => if vertex_in_list a lp then 0 else faceContrib a lp)).sum) * (1 / 6))

/-- `method3()` of the source: the documented tetrahedron clipped by the
three half-spaces, read back through `volume`. -/
def method3 : Option ℚ :=
  let P := construct (0, 0, 0) (1, 0, 0) (0, 1, 0) (0, 0, 1)
  match clip P (1/2, 0, 0) (1, 0, 0) with
  | .error _ => none
  | .ok P1 =>
    match clip P1 (0, 1/2, 0) (0, 1, 0) with
    | .error _ => none
    | .ok P2 =>
      match clip P2 (0, 0, 1/2) (0, 0, 1) with
      | .error _ => none
      | .ok P3 => volume P3

end FEdensity


/-!  The Batteries `Rat` arithmetic operations are `@[irreducible]`,
which blocks `decide` on concrete rational computations; make them
reducible for the concrete evaluations below.  -/
attribute [local semireducible] Rat.add Rat.mul Rat.sub Rat.inv Rat.ofScientific

namespace FEdensity

theorem epsilon_pos : 0 < epsilon := by norm_num [epsilon]

/-- Signed distance of `v` from the plane `(p, n)`, the quantity the
source calls `v_normal`. -/
def planeDist (p n v : Vec3) : ℚ := dot (vsub v p) n

/-- `v` lies in the on-plane band `(-epsilon, epsilon]` of the plane. -/
def inBand (p n v : Vec3) : Prop :=
  -epsilon < planeDist p n v ∧ planeDist p n v ≤ epsilon

theorem update_edge_front (edge : Edge) (p n : Vec3)
    (h1 : -epsilon < planeDist p n edge.1) (h2 : -epsilon < planeDist p n edge.2) :
    update_edge edge p n = .ok (none, none) := by
  simp only [update_edge]
  rw [if_pos ⟨h1, h2⟩]

theorem update_edge_behind (edge : Edge) (p n : Vec3)
    (h1 : planeDist p n edge.1 ≤ -epsilon) (h2 : planeDist p n edge.2 ≤ -epsilon) :
    update_edge edge p n = .ok (some edge, none) := by
  simp only [update_edge]
  rw [if_neg (by rintro ⟨a, _⟩; exact absurd h1 (not_le.mpr a)), if_pos ⟨h1, h2⟩]

theorem update_edge_band1 (edge : Edge) (p n : Vec3)
    (h1 : inBand p n edge.1) (h2 : planeDist p n edge.2 ≤ -epsilon) :
    update_edge edge p n = .ok (some edge, some edge.1) := by
  simp only [update_edge]
  rw [if_neg (by rintro ⟨_, b⟩; exact absurd h2 (not_le.mpr b)),
      if_neg (by rintro ⟨a, _⟩; exact absurd h1.1 (not_lt.mpr a)),
      if_pos ⟨h1.1, h1.2⟩]

theorem update_edge_band2 (edge : Edge) (p n : Vec3)
    (h1 : planeDist p n edge.1 ≤ -epsilon) (h2 : inBand p n edge.2) :
    update_edge edge p n = .ok (some edge, some edge.2) := by
  simp only [update_edge]
  rw [if_neg (by rintro ⟨a, _⟩; exact absurd h1 (not_le.mpr a)),
      if_neg (by rintro ⟨_, b⟩; exact absurd h2.1 (not_lt.mpr b)),
      if_neg (by rintro ⟨a, _⟩; exact absurd h1 (not_le.mpr a)),
      if_pos ⟨h2.1, h2.2⟩]

theorem update_edge_straddle1 (edge : Edge) (p n : Vec3)
    (h1 : epsilon < planeDist p n edge.1) (h2 : planeDist p n edge.2 ≤ -epsilon) :
    update_edge edge p n =
      (let v_new := vadd edge.1 (smul (-(dot (vsub edge.1 p) n) / dot (vsub edge.2 edge.1) n)
        (vsub edge.2 edge.1));
       if edge_lengthSq (v_new, edge.2) > epsilon ^ 2 then .ok (some (v_new, edge.2), some v_new)
       else .error .shortEdge) := by
  have he := epsilon_pos
  simp only [update_edge, planeDist] at *
  rw [if_neg (by rintro ⟨_, b⟩; exact absurd h2 (not_le.mpr b)),
      if_neg (by rintro ⟨a, _⟩; exact absurd a (not_le.mpr (by linarith))),
      if_neg (by rintro ⟨_, b⟩; exact absurd h1 (not_lt.mpr b)),
      if_neg (by rintro ⟨b, _⟩; exact absurd h2 (not_le.mpr b)),
      if_pos h1]

theorem update_edge_straddle2 (edge : Edge) (p n : Vec3)
    (h1 : planeDist p n edge.1 ≤ -epsilon) (h2 : epsilon < planeDist p n edge.2) :
    update_edge edge p n =
      (let v_new := vadd edge.1 (smul (-(dot (vsub edge.1 p) n) / dot (vsub edge.2 edge.1) n)
        (vsub edge.2 edge.1));
       if edge_lengthSq (edge.1, v_new) > epsilon ^ 2 then .ok (some (edge.1, v_new), some v_new)
       else .error .shortEdge) := by
  have he := epsilon_pos
  simp only [update_edge, planeDist] at *
  rw [if_neg (by rintro ⟨a, _⟩; exact absurd h1 (not_le.mpr a)),
      if_neg (by rintro ⟨_, b⟩; exact absurd b (not_le.mpr (by linarith))),
      if_neg (by rintro ⟨a, _⟩; exact absurd h1 (not_le.mpr a)),
      if_neg (by rintro ⟨_, b⟩; exact absurd h2 (not_lt.mpr b))]
  have hlt : ¬(dot (vsub edge.1 p) n > epsilon) := not_lt.mpr (by linarith)
  simp only [if_neg hlt]


/-- Exhaustive positioning of a signed distance relative to the
tolerance bands used by `update_edge`. -/
theorem dist_trichotomy (x : ℚ) :
    x ≤ -epsilon ∨ (-epsilon < x ∧ x ≤ epsilon) ∨ epsilon < x := by
  rcases le_or_lt x (-epsilon) with h | h
  · exact Or.inl h
  · rcases le_or_lt x epsilon with h2 | h2
    · exact Or.inr (Or.inl ⟨h, h2⟩)
    · exact Or.inr (Or.inr h2)

/-- **C2.**  Classification of `update_edge`: it discards the edge
(returning `(none, none)`) iff both signed distances exceed `-epsilon`;
it returns the edge unchanged with no cap vertex iff both distances are
`≤ -epsilon`; and when one endpoint lies in the on-plane band
`(-epsilon, epsilon]` while the other is `≤ -epsilon`, it returns the
edge unchanged together with that on-plane endpoint as the cap-vertex
candidate. -/
theorem update_edge_cases (edge : Edge) (p n : Vec3) :
    (update_edge edge p n = .ok (none, none) ↔
      (-epsilon < planeDist p n edge.1 ∧ -epsilon < planeDist p n edge.2))
    ∧ (update_edge edge p n = .ok (some edge, none) ↔
      (planeDist p n edge.1 ≤ -epsilon ∧ planeDist p n edge.2 ≤ -epsilon))
    ∧ ((inBand p n edge.1 ∧ planeDist p n edge.2 ≤ -epsilon) →
      update_edge edge p n = .ok (some edge, some edge.1))
    ∧ ((inBand p n edge.2 ∧ planeDist p n edge.1 ≤ -epsilon) →
      update_edge edge p n = .ok (some edge, some edge.2)) := by
  have he := epsilon_pos
  refine ⟨⟨fun h => ?_, fun h => update_edge_front edge p n h.1 h.2⟩,
          ⟨fun h => ?_, fun h => update_edge_behind edge p n h.1 h.2⟩,
          fun h => update_edge_band1 edge p n h.1 h.2,
          fun h => update_edge_band2 edge p n h.2 h.1⟩
  · by_contra hc
    rcases dist_trichotomy (planeDist p n edge.1) with h1 | h1 | h1 <;>
      rcases dist_trichotomy (planeDist p n edge.2) with h2 | h2 | h2
    · rw [update_edge_behind edge p n h1 h2] at h; simp at h
    · rw [update_edge_band2 edge p n h1 ⟨h2.1, h2.2⟩] at h; simp at h
    · rw [update_edge_straddle2 edge p n h1 h2] at h
      simp only [] at h
      split_ifs at h <;> simp at h
    · rw [update_edge_band1 edge p n ⟨h1.1, h1.2⟩ h2] at h; simp at h
    · exact hc ⟨h1.1, h2.1⟩
    · exact hc ⟨h1.1, by linarith⟩
    · rw [update_edge_straddle1 edge p n h1 h2] at h
      simp only [] at h
      split_ifs at h <;> simp at h
    · exact hc ⟨by linarith, h2.1⟩
    · exact hc ⟨by linarith, by linarith⟩
  · by_contra hc
    rcases dist_trichotomy (planeDist p n edge.1) with h1 | h1 | h1 <;>
      rcases dist_trichotomy (planeDist p n edge.2) with h2 | h2 | h2
    · exact hc ⟨h1, h2⟩
    · rw [update_edge_band2 edge p n h1 ⟨h2.1, h2.2⟩] at h; simp at h
    · rw [update_edge_straddle2 edge p n h1 h2] at h
      simp only [] at h
      split_ifs at h <;> simp at h
    · rw [update_edge_band1 edge p n ⟨h1.1, h1.2⟩ h2] at h; simp at h
    · rw [update_edge_front edge p n h1.1 h2.1] at h; simp at h
    · rw [update_edge_front edge p n h1.1 (by linarith)] at h; simp at h
    · rw [update_edge_straddle1 edge p n h1 h2] at h
      simp only [] at h
      split_ifs at h <;> simp at h
    · rw [update_edge_front edge p n (by linarith) h2.1] at h; simp at h
    · rw [update_edge_front edge p n (by linarith) (by linarith)] at h; simp at h

/-- Witness for C2 at a concrete on-plane/behind edge. -/
theorem update_edge_cases_app :
    update_edge ((0, 0, 0), (0, 0, -1)) (0, 0, 0) (0, 0, 1) =
      .ok (some ((0, 0, 0), (0, 0, -1)), some (0, 0, 0)) :=
  (update_edge_cases ((0, 0, 0), (0, 0, -1)) (0, 0, 0) (0, 0, 1)).2.2.1
    ⟨⟨by norm_num [inBand, planeDist, dot, vsub, epsilon],
      by norm_num [inBand, planeDist, dot, vsub, epsilon]⟩,
      by norm_num [planeDist, dot, vsub, epsilon]⟩

/-- **C3.**  In the straddling case (one signed distance `> epsilon`,
the other `≤ -epsilon`), `update_edge` replaces the in-front endpoint by
`v_new = v1 + alpha*(v2-v1)` with `alpha = -d1 / dot(v2-v1, n)`, keeps
the other endpoint, and returns the trimmed edge together with `v_new`;
if the trimmed edge's (squared) length does not exceed `epsilon`
(squared) the operation instead fails fatally. -/
theorem update_edge_straddle_spec (edge : Edge) (p n : Vec3) :
    (epsilon < planeDist p n edge.1 ∧ planeDist p n edge.2 ≤ -epsilon →
      update_edge edge p n =
        (let v_new := vadd edge.1
          (smul (-(dot (vsub edge.1 p) n) / dot (vsub edge.2 edge.1) n) (vsub edge.2 edge.1));
         if edge_lengthSq (v_new, edge.2) > epsilon ^ 2 then
           .ok (some (v_new, edge.2), some v_new)
         else .error .shortEdge))
    ∧ (epsilon < planeDist p n edge.2 ∧ planeDist p n edge.1 ≤ -epsilon →
      update_edge edge p n =
        (let v_new := vadd edge.1
          (smul (-(dot (vsub edge.1 p) n) / dot (vsub edge.2 edge.1) n) (vsub edge.2 edge.1));
         if edge_lengthSq (edge.1, v_new) > epsilon ^ 2 then
           .ok (some (edge.1, v_new), some v_new)
         else .error .shortEdge)) :=
  ⟨fun h => update_edge_straddle1 edge p n h.1 h.2,
   fun h => update_edge_straddle2 edge p n h.2 h.1⟩

/-- Witness for C3: trimming the edge from `(3,0,0)` to `(-1,0,0)`
against the plane `x = 0` yields the edge from `(0,0,0)` to `(-1,0,0)`
and the cap vertex `(0,0,0)`. -/
theorem update_edge_straddle_spec_app :
    update_edge ((3, 0, 0), (-1, 0, 0)) (0, 0, 0) (1, 0, 0) =
      .ok (some ((0, 0, 0), (-1, 0, 0)), some (0, 0, 0)) := by
  have h := (update_edge_straddle_spec ((3, 0, 0), (-1, 0, 0)) (0, 0, 0) (1, 0, 0)).1
    ⟨by norm_num [planeDist, dot, vsub, epsilon], by norm_num [planeDist, dot, vsub, epsilon]⟩
  rw [h]
  norm_num [vadd, smul, vsub, dot, edge_lengthSq, normSq, epsilon]

/-- **C1.**  `method3` — the documented tetrahedron clipped by the three
half-spaces — yields volume `5/48`, within tolerance `1e-6`. -/
theorem method3_volume :
    ∃ v : ℚ, method3 = some v ∧ |v - 5 / 48| < 1 / 1000000 :=
  ⟨5 / 48, by decide, by norm_num⟩


theorem dot_vsub_eq (v1 v2 p n : Vec3) :
    dot (vsub v2 v1) n = planeDist p n v2 - planeDist p n v1 := by
  simp only [planeDist, dot, vsub]; ring

/-- The trimmed vertex `v1 + alpha*(v2-v1)` lies exactly on the plane
(in exact arithmetic), provided the edge is not parallel to it. -/
theorem planeDist_vnew (v1 v2 p n : Vec3) (hne : dot (vsub v2 v1) n ≠ 0) :
    planeDist p n
      (vadd v1 (smul (-(dot (vsub v1 p) n) / dot (vsub v2 v1) n) (vsub v2 v1))) = 0 := by
  simp only [planeDist, dot, vsub, vadd, smul] at *
  field_simp
  ring

/-- In the straddling cases the denominator `dot(v2-v1, n)` is nonzero. -/
theorem edge_normal_ne (edge : Edge) (p n : Vec3)
    (h : (epsilon < planeDist p n edge.1 ∧ planeDist p n edge.2 ≤ -epsilon) ∨
         (planeDist p n edge.1 ≤ -epsilon ∧ epsilon < planeDist p n edge.2)) :
    dot (vsub edge.2 edge.1) n ≠ 0 := by
  have he := epsilon_pos
  rw [dot_vsub_eq edge.1 edge.2 p n]
  rcases h with ⟨h1, h2⟩ | ⟨h1, h2⟩
  · intro hc; nlinarith
  · intro hc; nlinarith

/-- `update_edge` never discards an edge and emits a vertex at once. -/
theorem update_edge_ok_none (edge : Edge) (p n : Vec3) (ov : Option Vertex)
    (h : update_edge edge p n = .ok (none, ov)) : ov = none := by
  have he := epsilon_pos
  rcases dist_trichotomy (planeDist p n edge.1) with h1 | h1 | h1 <;>
    rcases dist_trichotomy (planeDist p n edge.2) with h2 | h2 | h2
  · rw [update_edge_behind edge p n h1 h2] at h; simp at h
  · rw [update_edge_band2 edge p n h1 ⟨h2.1, h2.2⟩] at h; simp at h
  · rw [update_edge_straddle2 edge p n h1 h2] at h
    simp only [] at h
    split_ifs at h <;> simp at h
  · rw [update_edge_band1 edge p n ⟨h1.1, h1.2⟩ h2] at h; simp at h
  · rw [update_edge_front edge p n h1.1 h2.1] at h
    simp only [Except.ok.injEq, Prod.mk.injEq, true_and] at h; exact h.symm
  · rw [update_edge_front edge p n h1.1 (by linarith)] at h
    simp only [Except.ok.injEq, Prod.mk.injEq, true_and] at h; exact h.symm
  · rw [update_edge_straddle1 edge p n h1 h2] at h
    simp only [] at h
    split_ifs at h <;> simp at h
  · rw [update_edge_front edge p n (by linarith) h2.1] at h
    simp only [Except.ok.injEq, Prod.mk.injEq, true_and] at h; exact h.symm
  · rw [update_edge_front edge p n (by linarith) (by linarith)] at h
    simp only [Except.ok.injEq, Prod.mk.injEq, true_and] at h; exact h.symm

/-- A kept edge is a fixed point of `update_edge` (with the same output
vertex), and any emitted cap vertex lies in the on-plane band.  This is
the per-edge core of the idempotence of `clip`: a trimmed endpoint has
exact distance 0, so re-clipping reproduces the edge and its cap
vertex. -/
theorem update_edge_ok_some (edge : Edge) (p n : Vec3) (e' : Edge) (ov : Option Vertex)
    (h : update_edge edge p n = .ok (some e', ov)) :
    update_edge e' p n = .ok (some e', ov) ∧ ∀ v, ov = some v → inBand p n v := by
  have he := epsilon_pos
  rcases dist_trichotomy (planeDist p n edge.1) with h1 | h1 | h1 <;>
    rcases dist_trichotomy (planeDist p n edge.2) with h2 | h2 | h2
  · rw [update_edge_behind edge p n h1 h2] at h
    simp only [Except.ok.injEq, Prod.mk.injEq, Option.some.injEq] at h
    rw [← h.1, ← h.2]
    exact ⟨update_edge_behind edge p n h1 h2, by simp⟩
  · rw [update_edge_band2 edge p n h1 ⟨h2.1, h2.2⟩] at h
    simp only [Except.ok.injEq, Prod.mk.injEq, Option.some.injEq] at h
    rw [← h.1, ← h.2]
    exact ⟨update_edge_band2 edge p n h1 ⟨h2.1, h2.2⟩,
      fun v hv => by cases hv; exact ⟨h2.1, h2.2⟩⟩
  · have hne := edge_normal_ne edge p n (Or.inr ⟨h1, h2⟩)
    have hz := planeDist_vnew edge.1 edge.2 p n hne
    rw [update_edge_straddle2 edge p n h1 h2] at h
    simp only [] at h
    split_ifs at h with hl
    · simp only [Except.ok.injEq, Prod.mk.injEq, Option.some.injEq] at h
      rw [← h.1, ← h.2]
      refine ⟨?_, fun v hv => by cases hv; exact ⟨by rw [hz]; linarith, by rw [hz]; linarith⟩⟩
      have := update_edge_band2 (edge.1,
        vadd edge.1 (smul (-(dot (vsub edge.1 p) n) / dot (vsub edge.2 edge.1) n)
          (vsub edge.2 edge.1))) p n h1 ⟨by rw [hz]; linarith, by rw [hz]; linarith⟩
      exact this
  · rw [update_edge_band1 edge p n ⟨h1.1, h1.2⟩ h2] at h
    simp only [Except.ok.injEq, Prod.mk.injEq, Option.some.injEq] at h
    rw [← h.1, ← h.2]
    exact ⟨update_edge_band1 edge p n ⟨h1.1, h1.2⟩ h2,
      fun v hv => by cases hv; exact ⟨h1.1, h1.2⟩⟩
  · rw [update_edge_front edge p n h1.1 h2.1] at h; simp at h
  · rw [update_edge_front edge p n h1.1 (by linarith)] at h; simp at h
  · have hne := edge_normal_ne edge p n (Or.inl ⟨h1, h2⟩)
    have hz := planeDist_vnew edge.1 edge.2 p n hne
    rw [update_edge_straddle1 edge p n h1 h2] at h
    simp only [] at h
    split_ifs at h with hl
    · simp only [Except.ok.injEq, Prod.mk.injEq, Option.some.injEq] at h
      rw [← h.1, ← h.2]
      refine ⟨?_, fun v hv => by cases hv; exact ⟨by rw [hz]; linarith, by rw [hz]; linarith⟩⟩
      have := update_edge_band1 (vadd edge.1
        (smul (-(dot (vsub edge.1 p) n) / dot (vsub edge.2 edge.1) n)
          (vsub edge.2 edge.1)), edge.2) p n ⟨by rw [hz]; linarith, by rw [hz]; linarith⟩ h2
      exact this
  · rw [update_edge_front edge p n (by linarith) h2.1] at h; simp at h
  · rw [update_edge_front edge p n (by linarith) (by linarith)] at h; simp at h


/-- Inversion of one step of `clipEdges`. -/
theorem clipEdges_cons_ok (p n : Vec3) (e : Edge) (es : List Edge)
    (kept : List Edge) (cands : List Vertex)
    (h : clipEdges p n (e :: es) = .ok (kept, cands)) :
    ∃ k0 c0 oe ov, clipEdges p n es = .ok (k0, c0) ∧ update_edge e p n = .ok (oe, ov) ∧
      kept = (match oe with | none => k0 | some e' => e' :: k0) ∧
      cands = (match ov with | none => c0 | some v => c0 ++ [v]) := by
  simp only [clipEdges] at h
  rcases he : clipEdges p n es with err | ⟨k0, c0⟩ <;> rw [he] at h
  · cases h
  · rcases hu : update_edge e p n with err | ⟨oe, ov⟩ <;> rw [hu] at h
    · cases h
    · simp only [Except.ok.injEq, Prod.mk.injEq] at h
      exact ⟨k0, c0, oe, ov, rfl, rfl, h.1.symm, h.2.symm⟩

/-- The kept-edge list of a successful `clipEdges` run is a fixed point
of `clipEdges`, reproducing the same cap-vertex candidates, and every
collected candidate lies in the on-plane band. -/
theorem clipEdges_ok (p n : Vec3) :
    ∀ (f : List Edge) kept cands, clipEdges p n f = .ok (kept, cands) →
      clipEdges p n kept = .ok (kept, cands) ∧ ∀ v ∈ cands, inBand p n v := by
  intro f
  induction f with
  | nil =>
    intro kept cands h
    simp only [clipEdges, Except.ok.injEq, Prod.mk.injEq] at h
    rw [← h.1, ← h.2]
    exact ⟨rfl, by simp⟩
  | cons e es ih =>
    intro kept cands h
    obtain ⟨k0, c0, oe, ov, hes, hue, hk, hc⟩ := clipEdges_cons_ok p n e es kept cands h
    obtain ⟨ihk, ihb⟩ := ih k0 c0 hes
    cases oe with
    | none =>
      have hov := update_edge_ok_none e p n ov hue
      subst hov
      simp only [] at hk hc
      rw [hk, hc]
      exact ⟨ihk, ihb⟩
    | some e' =>
      obtain ⟨hue', hband⟩ := update_edge_ok_some e p n e' ov hue
      simp only [] at hk
      subst hk
      constructor
      · simp only [clipEdges]
        rw [ihk, hue', hc]
      · intro v hv
        rw [hc] at hv
        cases ov with
        | none => exact ihb v hv
        | some w =>
          rcases List.mem_append.mp hv with hv | hv
          · exact ihb v hv
          · rw [List.mem_singleton.mp hv]
            exact hband w rfl

/-- `clipEdges` distributes over append: the edge list is traversed in
reverse, so the kept edges concatenate in order while the cap-vertex
candidates concatenate in swapped order. -/
theorem clipEdges_append (p n : Vec3) :
    ∀ (xs ys : List Edge) kx cx ky cy, clipEdges p n xs = .ok (kx, cx) →
      clipEdges p n ys = .ok (ky, cy) →
      clipEdges p n (xs ++ ys) = .ok (kx ++ ky, cy ++ cx) := by
  intro xs
  induction xs with
  | nil =>
    intro ys kx cx ky cy hx hy
    simp only [clipEdges, Except.ok.injEq, Prod.mk.injEq] at hx
    rw [← hx.1, ← hx.2]
    simpa using hy
  | cons e es ih =>
    intro ys kx cx ky cy hx hy
    obtain ⟨k0, c0, oe, ov, hes, hue, hk, hc⟩ := clipEdges_cons_ok p n e es kx cx hx
    have := ih ys k0 c0 ky cy hes hy
    simp only [List.cons_append, clipEdges, List.append_eq]
    rw [this, hue, hk, hc]
    cases oe <;> cases ov <;> simp [List.append_assoc]

/-- An edge list with every endpoint strictly in front of `-epsilon` is
entirely discarded and emits no cap vertices. -/
theorem clipEdges_front (p n : Vec3) :
    ∀ (f : List Edge),
      (∀ e ∈ f, -epsilon < planeDist p n e.1 ∧ -epsilon < planeDist p n e.2) →
      clipEdges p n f = .ok ([], []) := by
  intro f
  induction f with
  | nil => intro _; rfl
  | cons e es ih =>
    intro h
    simp only [clipEdges]
    rw [ih (fun x hx => h x (List.mem_cons_of_mem e hx)),
        update_edge_front e p n (h e (List.mem_cons_self e es)).1
          (h e (List.mem_cons_self e es)).2]


/-- A clipped face is a fixed point of `processFace` (with the same cap
contribution); any produced cap edge has both endpoints in the band and
it makes the face nonempty. -/
theorem processFace_ok (p n : Vec3) (f f' : Face) (cap? : Option Edge)
    (h : processFace p n f = .ok (f', cap?)) :
    processFace p n f' = .ok (f', cap?) ∧
    (∀ c, cap? = some c → inBand p n c.1 ∧ inBand p n c.2) ∧
    (∀ c, cap? = some c → f' ≠ []) := by
  simp only [processFace] at h
  rcases hce : clipEdges p n f with err | ⟨kept, cands⟩ <;> rw [hce] at h
  · cases h
  · obtain ⟨hk, hb⟩ := clipEdges_ok p n f kept cands hce
    rcases cands with _ | ⟨a, _ | ⟨b, _ | ⟨c, t⟩⟩⟩
    · simp only [Except.ok.injEq, Prod.mk.injEq] at h
      rw [← h.1, ← h.2]
      refine ⟨?_, by simp, by simp⟩
      simp only [processFace]
      rw [hk]
    · cases h
    · have ha : inBand p n a := hb a (by simp)
      have hbb : inBand p n b := hb b (by simp)
      have h' : (if edge_lengthSq (a, b) > epsilon ^ 2 then
          (Except.ok (kept ++ [(a, b)], some (a, b)) : Except GeomError (Face × Option Edge))
          else .ok (kept, none)) = .ok (f', cap?) := h
      clear h
      split_ifs at h' with hsep
      · simp only [Except.ok.injEq, Prod.mk.injEq] at h'
        rw [← h'.1, ← h'.2]
        have hone : clipEdges p n [(a, b)] = .ok ([], []) :=
          clipEdges_front p n [(a, b)]
            (by rintro e he; rw [List.mem_singleton.mp he]; exact ⟨ha.1, hbb.1⟩)
        have happ := clipEdges_append p n kept [(a, b)] kept [a, b] [] [] hk hone
        refine ⟨?_, ?_, by simp⟩
        · simp only [processFace]
          rw [happ]
          simp only [List.append_nil, List.nil_append]
          exact if_pos hsep
        · rintro c hc
          cases hc
          exact ⟨ha, hbb⟩
      · simp only [Except.ok.injEq, Prod.mk.injEq] at h'
        rw [← h'.1, ← h'.2]
        refine ⟨?_, by simp, by simp⟩
        simp only [processFace]
        rw [hk]
        exact if_neg hsep
    · cases h

/-- Inversion of one step of `clipFaces`. -/
theorem clipFaces_cons_ok (p n : Vec3) (f : Face) (fs : List Face)
    (faces : List Face) (caps : List Edge)
    (h : clipFaces p n (f :: fs) = .ok (faces, caps)) :
    ∃ fs0 caps0 f' cap?, clipFaces p n fs = .ok (fs0, caps0) ∧
      processFace p n f = .ok (f', cap?) ∧
      faces = (if f' = [] then fs0 else f' :: fs0) ∧
      caps = (match cap? with | none => caps0 | some c => caps0 ++ [c]) := by
  simp only [clipFaces] at h
  rcases hfs : clipFaces p n fs with err | ⟨fs0, caps0⟩ <;> rw [hfs] at h
  · cases h
  · rcases hpf : processFace p n f with err | ⟨f', cap?⟩ <;> rw [hpf] at h
    · cases h
    · simp only [Except.ok.injEq, Prod.mk.injEq] at h
      exact ⟨fs0, caps0, f', cap?, rfl, rfl, h.1.symm, h.2.symm⟩

/-- The face list of a successful `clipFaces` run is a fixed point of
`clipFaces`, reproducing the same accumulated cap edges, and every
accumulated cap edge has both endpoints in the on-plane band. -/
theorem clipFaces_ok (p n : Vec3) :
    ∀ (P : List Face) faces caps, clipFaces p n P = .ok (faces, caps) →
      clipFaces p n faces = .ok (faces, caps) ∧
      ∀ c ∈ caps, inBand p n c.1 ∧ inBand p n c.2 := by
  intro P
  induction P with
  | nil =>
    intro faces caps h
    simp only [clipFaces, Except.ok.injEq, Prod.mk.injEq] at h
    rw [← h.1, ← h.2]
    exact ⟨rfl, by simp⟩
  | cons f fs ih =>
    intro faces caps h
    obtain ⟨fs0, caps0, f', cap?, hfs, hpf, hfc, hcp⟩ := clipFaces_cons_ok p n f fs faces caps h
    obtain ⟨ihk, ihb⟩ := ih fs0 caps0 hfs
    obtain ⟨hpf', hcb, hne⟩ := processFace_ok p n f f' cap? hpf
    by_cases hemp : f' = []
    · have hcapn : cap? = none := by
        cases cap? with
        | none => rfl
        | some c => exact absurd hemp (hne c rfl)
      subst hcapn
      rw [if_pos hemp] at hfc
      simp only [] at hcp
      rw [hfc, hcp]
      exact ⟨ihk, ihb⟩
    · rw [if_neg hemp] at hfc
      subst hfc
      constructor
      · simp only [clipFaces]
        rw [ihk, hpf']
        simp only [if_neg hemp]
        rw [hcp]
      · intro c hc
        rw [hcp] at hc
        cases cap? with
        | none => exact ihb c hc
        | some cc =>
          rcases List.mem_append.mp hc with hc | hc
          · exact ihb c hc
          · rw [List.mem_singleton.mp hc]
            exact hcb cc rfl

/-- `clipFaces` distributes over append, with the cap accumulators in
swapped order (the face list is traversed in reverse). -/
theorem clipFaces_append (p n : Vec3) :
    ∀ (xs ys : List Face) fx cx fy cy, clipFaces p n xs = .ok (fx, cx) →
      clipFaces p n ys = .ok (fy, cy) →
      clipFaces p n (xs ++ ys) = .ok (fx ++ fy, cy ++ cx) := by
  intro xs
  induction xs with
  | nil =>
    intro ys fx cx fy cy hx hy
    simp only [clipFaces, Except.ok.injEq, Prod.mk.injEq] at hx
    rw [← hx.1, ← hx.2]
    simpa using hy
  | cons f fs ih =>
    intro ys fx cx fy cy hx hy
    obtain ⟨fs0, caps0, f', cap?, hfs, hpf, hfc, hcp⟩ := clipFaces_cons_ok p n f fs fx cx hx
    have := ih ys fs0 caps0 fy cy hfs hy
    simp only [List.cons_append, clipFaces, List.append_eq]
    rw [this, hpf, hfc, hcp]
    by_cases hemp : f' = [] <;> cases cap? <;>
      simp [hemp, List.append_assoc]

/-- A face all of whose edges have both endpoints in the on-plane band
(such as the cap face produced by a clip) is wholly discarded by the
next identical clip. -/
theorem clipFaces_capface (p n : Vec3) (g : Face)
    (hg : ∀ c ∈ g, inBand p n c.1 ∧ inBand p n c.2) :
    clipFaces p n [g] = .ok ([], []) := by
  have h1 : clipEdges p n g = .ok ([], []) :=
    clipEdges_front p n g (fun e he => ⟨(hg e he).1.1, (hg e he).2.1⟩)
  simp only [clipFaces, processFace]
  rw [h1]
  rfl

/-- **C6.**  Applying the same `(point, normal)` clip twice in a row
yields the same polyhedron state as applying it once: a successful clip
produces a fixed point of that clip, hence the observations `volume` and
face count are also unchanged by the second application. -/
theorem clip_idempotent (P : Polyhedron) (p n : Vec3) (Q : Polyhedron)
    (h : clip P p n = .ok Q) :
    clip Q p n = .ok Q ∧
    ∀ R, clip Q p n = .ok R → volume R = volume Q ∧ R.length = Q.length := by
  have hmain : clip Q p n = .ok Q := by
    simp only [clip] at h
    rcases hcf : clipFaces p n P with err | ⟨faces, caps⟩ <;> rw [hcf] at h
    · cases h
    · simp only [Except.ok.injEq] at h
      obtain ⟨hff, hcb⟩ := clipFaces_ok p n P faces caps hcf
      by_cases hlen : caps.length > 2
      · rw [if_pos hlen] at h
        have hcap := clipFaces_capface p n caps hcb
        have happ := clipFaces_append p n faces [caps] faces caps [] [] hff hcap
        simp only [List.append_nil, List.nil_append] at happ
        rw [← h]
        simp only [clip]
        rw [happ]
        exact congrArg Except.ok (if_pos hlen)
      · rw [if_neg hlen] at h
        rw [← h]
        simp only [clip]
        rw [hff]
        exact congrArg Except.ok (if_neg hlen)
  refine ⟨hmain, fun R hR => ?_⟩
  rw [hmain] at hR
  cases hR
  exact ⟨rfl, rfl⟩


/-- Decidable equality for clip results, used to evaluate concrete runs. -/
instance instDecEqExceptGeom {α : Type} [DecidableEq α] : DecidableEq (Except GeomError α)
  | .error e1, .error e2 =>
    if h : e1 = e2 then isTrue (h ▸ rfl) else isFalse (by intro hc; cases hc; exact h rfl)
  | .error _, .ok _ => isFalse (by intro hc; cases hc)
  | .ok _, .error _ => isFalse (by intro hc; cases hc)
  | .ok a1, .ok a2 =>
    if h : a1 = a2 then isTrue (h ▸ rfl) else isFalse (by intro hc; cases hc; exact h rfl)

/-- The documented test tetrahedron. -/
def tetra0 : Polyhedron := construct (0, 0, 0) (1, 0, 0) (0, 1, 0) (0, 0, 1)

/-- The four surviving side faces after clipping `tetra0` with the plane
`x = 1/2` (outward normal `(1,0,0)`). -/
def faces1 : List Face :=
  [[((1/2, 1/2, 0), (0, 1, 0)), ((1/2, 0, 1/2), (0, 0, 1)),
    ((0, 1, 0), (0, 0, 1)), ((1/2, 0, 1/2), (1/2, 1/2, 0))],
   [((0, 0, 0), (0, 1, 0)), ((0, 0, 0), (0, 0, 1)), ((0, 1, 0), (0, 0, 1))],
   [((0, 0, 0), (1/2, 0, 0)), ((0, 0, 0), (0, 0, 1)),
    ((1/2, 0, 1/2), (0, 0, 1)), ((1/2, 0, 1/2), (1/2, 0, 0))],
   [((0, 0, 0), (1/2, 0, 0)), ((0, 0, 0), (0, 1, 0)),
    ((1/2, 1/2, 0), (0, 1, 0)), ((1/2, 1/2, 0), (1/2, 0, 0))]]

/-- The accumulated cap edges of that clip. -/
def capEdges1 : List Edge :=
  [((1/2, 1/2, 0), (1/2, 0, 0)), ((1/2, 0, 1/2), (1/2, 0, 0)),
   ((1/2, 0, 1/2), (1/2, 1/2, 0))]

/-- The polyhedron after clipping `tetra0` with the plane `x = 1/2`. -/
def P1lit : Polyhedron := faces1 ++ [capEdges1]

/-- Witness for C6: the first clip of the documented sequence produces
`P1lit`, and by `clip_idempotent` re-applying the same clip to `P1lit`
reproduces `P1lit` exactly. -/
theorem clip_idempotent_app : clip P1lit (1/2, 0, 0) (1, 0, 0) = .ok P1lit :=
  (clip_idempotent tetra0 (1/2, 0, 0) (1, 0, 0) P1lit (by decide)).1

/-- A face list with every endpoint strictly in front of `-epsilon` is
entirely removed and contributes no cap edges. -/
theorem clipFaces_front (p n : Vec3) :
    ∀ (P : List Face),
      (∀ f ∈ P, ∀ e ∈ f, -epsilon < planeDist p n e.1 ∧ -epsilon < planeDist p n e.2) →
      clipFaces p n P = .ok ([], []) := by
  intro P
  induction P with
  | nil => intro _; rfl
  | cons f fs ih =>
    intro h
    simp only [clipFaces]
    rw [ih (fun g hg => h g (List.mem_cons_of_mem f hg))]
    have hpf : processFace p n f = .ok ([], none) := by
      simp only [processFace]
      rw [clipEdges_front p n f (h f (List.mem_cons_self f fs))]
    rw [hpf]
    rfl

/-- **C9.**  A clip whose plane lies entirely in front of the solid
(every vertex of every edge of every face has signed distance
`> -epsilon`) leaves zero faces, and `volume` of a polyhedron with no
faces is 0. -/
theorem clip_total_removal (P : Polyhedron) (p n : Vec3)
    (h : ∀ f ∈ P, ∀ e ∈ f, -epsilon < planeDist p n e.1 ∧ -epsilon < planeDist p n e.2) :
    clip P p n = .ok [] ∧ volume ([] : Polyhedron) = some 0 := by
  constructor
  · simp only [clip]
    rw [clipFaces_front p n P h]
    rfl
  · rfl

/-- Witness for C9: the plane `x = -1` with normal `(1,0,0)` lies
entirely in front of the documented tetrahedron, and clipping removes
every face. -/
theorem clip_total_removal_app : clip tetra0 (-1, 0, 0) (1, 0, 0) = .ok [] :=
  (clip_total_removal tetra0 (-1, 0, 0) (1, 0, 0) (by decide)).1

theorem faceContrib_nonneg (a : Vec3) (loop : List Vec3) : 0 ≤ faceContrib a loop := by
  cases loop with
  | nil => exact le_refl 0
  | cons b rest =>
    apply List.sum_nonneg
    intro x hx
    rcases List.mem_map.mp hx with ⟨cd, _, rfl⟩
    exact abs_nonneg _

/-- **C10.**  Whenever `volume` terminates it returns a nonnegative
scalar: every fan triangle contributes the absolute value of a scalar
triple product, and the total is scaled by the positive factor `1/6`. -/
theorem volume_nonneg (P : Polyhedron) (v : ℚ) (h : volume P = some v) : 0 ≤ v := by
  cases P with
  | nil =>
    simp only [volume, Option.some.injEq] at h
    rw [← h]
  | cons f fs =>
    cases f with
    | nil =>
      simp only [volume] at h
      exact Option.noConfusion h
    | cons e0 es =>
      simp only [volume] at h
      rcases hm : (((e0 :: es) :: fs : Polyhedron)).mapM extract_face_vertices with _ | loops <;>
        rw [hm] at h
      · cases h
      · simp only [Option.some.injEq] at h
        rw [← h]
        apply mul_nonneg _ (by norm_num)
        apply List.sum_nonneg
        intro x hx
        rcases List.mem_map.mp hx with ⟨lp, _, rfl⟩
        by_cases hin : vertex_in_list e0.1 lp = true
        · simp [hin]
        · simp only [hin, if_false]
          exact faceContrib_nonneg _ _

/-- Witness for C10 at the untouched tetrahedron, whose volume is 1/6. -/
theorem volume_nonneg_app : (0 : ℚ) ≤ 1 / 6 :=
  volume_nonneg tetra0 (1 / 6) (by decide)

/-- **C7.**  Cap assembly: a face whose edge pass collected exactly two
cap vertices separated by more than `epsilon` gains the joining edge and
hands a copy of it to the accumulator; the accumulator grows by exactly
that edge; and the final cap face (built from exactly the accumulated
edges) is appended iff the accumulator holds at least 3 edges. -/
theorem clip_cap_assembly (p n : Vec3) :
    (∀ (f : Face) (kept : List Edge) (a b : Vertex),
      clipEdges p n f = .ok (kept, [a, b]) → edge_lengthSq (a, b) > epsilon ^ 2 →
      processFace p n f = .ok (kept ++ [(a, b)], some (a, b)))
    ∧ (∀ (f : Face) (fs fs' : List Face) (caps : List Edge) (f' : Face) (c : Edge),
      clipFaces p n fs = .ok (fs', caps) → processFace p n f = .ok (f', some c) →
      clipFaces p n (f :: fs) = .ok ((if f' = [] then fs' else f' :: fs'), caps ++ [c]))
    ∧ (∀ (P : Polyhedron) (faces : List Face) (caps : List Edge),
      clipFaces p n P = .ok (faces, caps) →
      clip P p n = .ok (if 3 ≤ caps.length then faces ++ [caps] else faces)) := by
  refine ⟨?_, ?_, ?_⟩
  · intro f kept a b hce hsep
    simp only [processFace]
    rw [hce]
    exact if_pos hsep
  · intro f fs fs' caps f' c hcf hpf
    simp only [clipFaces]
    rw [hcf, hpf]
  · intro P faces caps hcf
    simp only [clip]
    rw [hcf]
    rfl

/-- Witness for C7: the first clip of the documented sequence, whose
three accumulated cap edges meet the threshold and become the cap
face. -/
theorem clip_cap_assembly_app :
    clip tetra0 (1/2, 0, 0) (1, 0, 0) = .ok (faces1 ++ [capEdges1]) :=
  (clip_cap_assembly (1/2, 0, 0) (1, 0, 0)).2.2 tetra0 faces1 capEdges1 (by decide)


/-- Invariant F1 in the claim's own equivalent formulation: every vertex
appearing in the face is the endpoint of exactly two of its edges
(endpoint membership within tolerance, `vertex_in_edge`). -/
def faceF1 (f : Face) : Bool :=
  (f.flatMap (fun e => [e.1, e.2])).all
    (fun v => f.countP (fun e => vertex_in_edge v e) == 2)

/-- A genuine constructor tetrahedron chosen so that the plane
`z = 1 - 2*epsilon` cuts its apex `(0,0,1)` at distance `2*epsilon`
(strictly in front), while the two trim points on the face through
`(0,0,0)` and `(3/10, 2/5, 0)` land exactly `epsilon` apart:
`(0, 0, 1-2e)` and `(3e/5, 4e/5, 1-2e)` with `|(3e/5, 4e/5)| = e`. -/
def tetraBoundary : Polyhedron :=
  construct (0, 0, 0) (1, 0, 0) (3/10, 2/5, 0) (0, 0, 1)

/-- Observation for the F1 post-condition of a clip: `none` when the
clip fails fatally, otherwise whether every remaining face satisfies
F1. -/
def clipF1Check (P : Polyhedron) (p n : Vec3) : Option Bool :=
  match clip P p n with
  | .error _ => none
  | .ok Q => some (Q.all faceF1)

/-- **C4.**  The reference code violates F1 preservation on a reachable
input: `tetraBoundary` is a well-formed constructor output (all faces
F1, positive volume 1/15), yet the clip at `z = 1 - 2*epsilon` completes
without fatal error and leaves a face violating F1.  The two cap
vertices collected on that face are separated by exactly `epsilon`, so
the code neither appends the joining edge (the test is separation
`> epsilon`) nor regards them as the same vertex (the test is distance
`< epsilon`): the cut is left open, contradicting the invariant the
spec states for every completed clip. -/
theorem clip_f1_boundary :
    tetraBoundary.all faceF1 = true ∧
    volume tetraBoundary = some (1/15) ∧
    clipF1Check tetraBoundary (0, 0, 1 - 2 * epsilon) (0, 0, 1) = some false := by
  refine ⟨by decide, by decide, by decide⟩

/-!  Allocation-tagged model for invariant P2.  The source checks P2 with
`id()` (object identity), which a value-level embedding cannot express;
the tagged model gives every stored vertex slot an allocation id drawn
from a monotone counter, with a fresh id exactly where the source
deep-copies or freshly allocates a vertex (`copy.deepcopy` at
construction, `v_new` allocation, `copy.deepcopy(new_vertex)` and
`copy.deepcopy(new_edge)` during `clip`).  `vertices_are_unique` then
mirrors the source's identity-uniqueness check on the ids. -/

/-- A vertex slot with its allocation id. -/
abbrev TVertex := Nat × Vec3

abbrev TEdge := TVertex × TVertex

abbrev TFace := List TEdge

abbrev TPolyhedron := List TFace

/-- `update_edge` in the tagged model: `v_new` is freshly allocated;
the on-plane cases return the stored vertex object itself. -/
def update_edgeT (edge : TEdge) (p n : Vec3) (ctr : Nat) :
    Except GeomError ((Option TEdge × Option TVertex) × Nat) :=
  let v1 := edge.1.2
  let v2 := edge.2.2
  let v1_normal := dot (vsub v1 p) n
  let v2_normal := dot (vsub v2 p) n
  if v1_normal > -epsilon ∧ v2_normal > -epsilon then .ok ((none, none), ctr)
  else if v1_normal ≤ -epsilon ∧ v2_normal ≤ -epsilon then .ok ((some edge, none), ctr)
  else if v1_normal > -epsilon ∧ v1_normal ≤ epsilon then .ok ((some edge, some edge.1), ctr)
  else if v2_normal > -epsilon ∧ v2_normal ≤ epsilon then .ok ((some edge, some edge.2), ctr)
  else
    let edge_normal := dot (vsub v2 v1) n
    let alpha := -v1_normal / edge_normal
    let v_new : TVertex := (ctr, vadd v1 (smul alpha (vsub v2 v1)))
    let edge' : TEdge := if v1_normal > epsilon then (v_new, edge.2) else (edge.1, v_new)
    if edge_lengthSq (edge'.1.2, edge'.2.2) > epsilon ^ 2 then .ok ((some edge', some v_new), ctr + 1)
    else .error .shortEdge

/-- Tagged inner clip loop; each collected cap vertex is a deep copy
(`copy.deepcopy(new_vertex)`), hence gets a fresh id. -/
def clipEdgesT (p n : Vec3) : List TEdge → Nat → Except GeomError ((List TEdge × List TVertex) × Nat)
  | [], ctr => .ok (([], []), ctr)
  | e :: es, ctr =>
    match clipEdgesT p n es ctr with
    | .error err => .error err
    | .ok ((kept, cands), ctr1) =>
      match update_edgeT e p n ctr1 with
      | .error err => .error err
      | .ok ((oe, ov), ctr2) =>
        match ov with
        | none => .ok (((match oe with | none => kept | some e' => e' :: kept), cands), ctr2)
        | some v => .ok (((match oe with | none => kept | some e' => e' :: kept),
                          cands ++ [(ctr2, v.2)]), ctr2 + 1)

/-- Tagged per-face body; the joining edge enters the face with the
collected vertex objects, while the accumulator receives a deep copy
(`copy.deepcopy(new_edge)`) with fresh ids. -/
def processFaceT (p n : Vec3) (f : TFace) (ctr : Nat) :
    Except GeomError ((TFace × Option TEdge) × Nat) :=
  match clipEdgesT p n f ctr with
  | .error err => .error err
  | .ok ((kept, cands), ctr1) =>
    match cands with
    | [] => .ok ((kept, none), ctr1)
    | [a, b] =>
      if edge_lengthSq (a.2, b.2) > epsilon ^ 2 then
        .ok ((kept ++ [(a, b)], some ((ctr1, a.2), (ctr1 + 1, b.2))), ctr1 + 2)
      else .ok ((kept, none), ctr1)
    | _ => .error .badCapCount

def clipFacesT (p n : Vec3) : List TFace → Nat → Except GeomError ((List TFace × List TEdge) × Nat)
  | [], ctr => .ok (([], []), ctr)
  | f :: fs, ctr =>
    match clipFacesT p n fs ctr with
    | .error err => .error err
    | .ok ((fs', caps), ctr1) =>
      match processFaceT p n f ctr1 with
      | .error err => .error err
      | .ok ((f', cap?), ctr2) =>
        .ok (((if f' = [] then fs' else f' :: fs'),
              (match cap? with | none => caps | some c => caps ++ [c])), ctr2)

/-- Tagged `clip`. -/
def clipT (P : TPolyhedron) (p n : Vec3) (ctr : Nat) : Except GeomError (TPolyhedron × Nat) :=
  match clipFacesT p n P ctr with
  | .error err => .error err
  | .ok ((faces, caps), ctr1) =>
    .ok ((if caps.length > 2 then faces ++ [caps] else faces), ctr1)

/-- Tag one face with fresh ids per slot (the per-slot `copy.deepcopy`
of the constructor). -/
def tagFace : Face → Nat → TFace × Nat
  | [], ctr => ([], ctr)
  | e :: es, ctr =>
    let rest := tagFace es (ctr + 2)
    (((ctr, e.1), (ctr + 1, e.2)) :: rest.1, rest.2)

def tagFaces : Polyhedron → Nat → TPolyhedron × Nat
  | [], ctr => ([], ctr)
  | f :: fs, ctr =>
    let tf := tagFace f ctr
    let tfs := tagFaces fs tf.2
    (tf.1 :: tfs.1, tfs.2)

/-- Tagged construction of the tetrahedron. -/
def constructT (a b c d : Vec3) : TPolyhedron × Nat := tagFaces (construct a b c d) 0

/-- `Polyhedron.vertices_are_unique` of the source: every reachable
vertex object (here: allocation id) is distinct. -/
def vertices_are_unique (P : TPolyhedron) : Bool :=
  let ids := (P.flatMap (fun f => f)).flatMap (fun e => [e.1.1, e.2.1])
  ids.dedup.length == ids.length

/-- Forget the tags. -/
def untagFace (f : TFace) : Face := f.map (fun e => (e.1.2, e.2.2))

/-- One tagged clip step over an accumulated state. -/
def tstep (s : Except GeomError (TPolyhedron × Nat)) (p n : Vec3) :
    Except GeomError (TPolyhedron × Nat) :=
  match s with
  | .error e => .error e
  | .ok (P, ctr) => clipT P p n ctr

def tseq0 : Except GeomError (TPolyhedron × Nat) :=
  .ok (constructT (0, 0, 0) (1, 0, 0) (0, 1, 0) (0, 0, 1))

def tseq1 : Except GeomError (TPolyhedron × Nat) := tstep tseq0 (1/2, 0, 0) (1, 0, 0)

def tseq2 : Except GeomError (TPolyhedron × Nat) := tstep tseq1 (0, 1/2, 0) (0, 1, 0)

def tseq3 : Except GeomError (TPolyhedron × Nat) := tstep tseq2 (0, 0, 1/2) (0, 0, 1)

/-- F1 for every face, and P2 (distinct vertex storage ids), of a tagged
clip result. -/
def checkF1P2 (s : Except GeomError (TPolyhedron × Nat)) : Bool :=
  match s with
  | .error _ => false
  | .ok (P, _) => P.all (fun f => faceF1 (untagFace f)) && vertices_are_unique P

/-- Supporting fact for the P2 half of the invariant: after each `clip`
of the documented test sequence (the tetrahedron cut by the three
half-spaces), every face satisfies F1 and the polyhedron satisfies P2 in
the allocation-tagged model — no two stored vertex slots share an
allocation id, mirroring the always-passing `vertices_are_unique`
assert of the source. -/
theorem clip_sequence_f1_p2 :
    checkF1P2 tseq1 = true ∧ checkF1P2 tseq2 = true ∧ checkF1P2 tseq3 = true := by
  refine ⟨by decide, by decide, by decide⟩

/-- The three faces of the C5 counterexample: `F0c` holds the reference
vertex `(0,0,10)` far above the others; `F1c` lies in the plane `x = 0`
and `F2c` in the plane `y = 0`, both planes through the reference
vertex, so both contribute zero volume initially. -/
def F0c : Face := [((0, 0, 10), (1, 0, 10)), ((1, 0, 10), (0, 1, 10)), ((0, 1, 10), (0, 0, 10))]

def F1c : Face := [((0, 1, 0), (0, 2, 0)), ((0, 2, 0), (0, 1, 1)), ((0, 1, 1), (0, 1, 0))]

def F2c : Face := [((1, 0, 0), (2, 0, 0)), ((2, 0, 0), (1, 0, 1)), ((1, 0, 1), (1, 0, 0))]

/-- Counterexample to C5 as stated: on this (unreachable, disconnected)
polyhedron state the clip `z = 5` removes only `F0c`, which changes the
reference vertex of `volume` and *increases* the reported volume from 0
to 1/6. -/
theorem volume_monotone_cex :
    volume [F0c, F1c, F2c] = some 0 ∧
    clip [F0c, F1c, F2c] (0, 0, 5) (0, 0, 1) = .ok [F1c, F2c] ∧
    volume [F1c, F2c] = some (1/6) ∧ ¬ ((1 : ℚ)/6 ≤ (0 : ℚ)) := by
  refine ⟨by decide, by decide, by decide, by norm_num⟩

/-- A sequence of clips applied in order. -/
def clipSeq : Polyhedron → List (Vec3 × Vec3) → Except GeomError Polyhedron
  | P, [] => .ok P
  | P, c :: cs =>
    match clip P c.1 c.2 with
    | .error e => .error e
    | .ok P1 => clipSeq P1 cs

/-- Volume of the documented tetrahedron after a prefix of the
documented clip sequence. -/
def volAfter (cs : List (Vec3 × Vec3)) : Option ℚ :=
  match clipSeq tetra0 cs with
  | .error _ => none
  | .ok P => volume P

def clips3 : List (Vec3 × Vec3) :=
  [((1/2, 0, 0), (1, 0, 0)), ((0, 1/2, 0), (0, 1, 0)), ((0, 0, 1/2), (0, 0, 1))]

/-- **C5 (amended).**  Along the documented clip sequence the volume is
monotonically nonincreasing: 1/6 ≥ 7/48 ≥ 1/8 ≥ 5/48. -/
theorem volume_monotone_seq :
    volAfter [] = some (1/6) ∧
    volAfter (clips3.take 1) = some (7/48) ∧
    volAfter (clips3.take 2) = some (1/8) ∧
    volAfter clips3 = some (5/48) ∧
    ((5 : ℚ)/48 ≤ 1/8 ∧ (1 : ℚ)/8 ≤ 7/48 ∧ (7 : ℚ)/48 ≤ 1/6) := by
  refine ⟨by decide, by decide, by decide, by decide, by norm_num⟩


/-!  Mutation-faithful model of `clip` for the atomicity claim.  The
source mutates `self.faces` in place and signals invariant violations
with `assert`, i.e. an exception: when an assertion fires, the edits
already applied (trims, pops, appends) remain in the object seen by the
caller.  `clipMut` returns the faces list as left by the run together
with a success flag; on failure the returned list is the partially
updated state. -/

/-- `update_edge` with in-place semantics: on the failing length
assertion the edge has already been trimmed and stays (mutated) in the
face; the flag records the exception. -/
def update_edgeM (edge : Edge) (p n : Vec3) : Option Edge × Option Vertex × Bool :=
  let v1 := edge.1
  let v2 := edge.2
  let v1_normal := dot (vsub v1 p) n
  let v2_normal := dot (vsub v2 p) n
  if v1_normal > -epsilon ∧ v2_normal > -epsilon then (none, none, true)
  else if v1_normal ≤ -epsilon ∧ v2_normal ≤ -epsilon then (some edge, none, true)
  else if v1_normal > -epsilon ∧ v1_normal ≤ epsilon then (some edge, some v1, true)
  else if v2_normal > -epsilon ∧ v2_normal ≤ epsilon then (some edge, some v2, true)
  else
    let edge_normal := dot (vsub v2 v1) n
    let alpha := -v1_normal / edge_normal
    let v_new := vadd v1 (smul alpha (vsub v2 v1))
    let edge' : Edge := if v1_normal > epsilon then (v_new, v2) else (v1, v_new)
    if edge_lengthSq edge' > epsilon ^ 2 then (some edge', some v_new, true)
    else (some edge', none, false)

/-- In-place inner loop: edges later in the list are processed first;
once an exception occurred, earlier edges stay untouched in the face. -/
def clipEdgesM (p n : Vec3) : List Edge → List Edge × List Vertex × Bool
  | [] => ([], [], true)
  | e :: es =>
    let r := clipEdgesM p n es
    match r.2.2 with
    | false => (e :: r.1, r.2.1, false)
    | true =>
      let u := update_edgeM e p n
      ((match u.1 with | none => r.1 | some e' => e' :: r.1),
       (match u.2.1 with | none => r.2.1 | some v => r.2.1 ++ [v]),
       u.2.2)

/-- In-place per-face body: a failing cap-count assertion leaves the
face with all pops and trims already applied and no joining edge. -/
def processFaceM (p n : Vec3) (f : Face) : Face × Option Edge × Bool :=
  let r := clipEdgesM p n f
  match r.2.2 with
  | false => (r.1, none, false)
  | true =>
    match r.2.1 with
    | [] => (r.1, none, true)
    | [a, b] =>
      if edge_lengthSq (a, b) > epsilon ^ 2 then (r.1 ++ [(a, b)], some (a, b), true)
      else (r.1, none, true)
    | _ => (r.1, none, false)

/-- In-place outer loop: faces later in the list are processed first;
a face whose processing raised stays (partially mutated, not popped even
if empty), and earlier faces stay untouched. -/
def clipFacesM (p n : Vec3) : List Face → List Face × List Edge × Bool
  | [] => ([], [], true)
  | f :: fs =>
    let r := clipFacesM p n fs
    match r.2.2 with
    | false => (f :: r.1, r.2.1, false)
    | true =>
      let q := processFaceM p n f
      match q.2.2 with
      | false => (q.1 :: r.1, r.2.1, false)
      | true =>
        ((if q.1 = [] then r.1 else q.1 :: r.1),
         (match q.2.1 with | none => r.2.1 | some c => r.2.1 ++ [c]),
         true)

/-- In-place `clip`: the faces list as left by the run, plus a success
flag; on failure no cap face has been appended. -/
def clipMut (P : Polyhedron) (p n : Vec3) : Polyhedron × Bool :=
  let r := clipFacesM p n P
  match r.2.2 with
  | false => (r.1, false)
  | true => ((if r.2.1.length > 2 then r.1 ++ [r.2.1] else r.1), true)

/-- A single straddling edge: its trim succeeds but yields one cap
vertex, so the cap-count assertion fires after the edge was already
trimmed in place. -/
def straddleBad : Polyhedron := [[((3, 0, 0), (-1, 0, 0))]]

/-- Counterexample to C8 as stated: on `straddleBad` the clip fails
fatally (cap count 1), and the state left behind differs from the
initial one — the partially-applied intermediate state (the trimmed
edge) is exposed to the caller. -/
theorem clip_atomic_cex :
    clipMut straddleBad (0, 0, 0) (1, 0, 0) = ([[((0, 0, 0), (-1, 0, 0))]], false) ∧
    ([[((0, 0, 0), (-1, 0, 0))]] : Polyhedron) ≠ straddleBad ∧
    clip straddleBad (0, 0, 0) (1, 0, 0) = .error .badCapCount := by
  refine ⟨by decide, by decide, by decide⟩

theorem update_edgeM_iff (e : Edge) (p n : Vec3) (oe : Option Edge) (ov : Option Vertex) :
    update_edgeM e p n = (oe, ov, true) ↔ update_edge e p n = .ok (oe, ov) := by
  simp only [update_edgeM, update_edge]
  split_ifs <;> simp [Prod.ext_iff]

theorem clipEdgesM_iff (p n : Vec3) :
    ∀ (es : List Edge) kept cands,
      clipEdgesM p n es = (kept, cands, true) ↔ clipEdges p n es = .ok (kept, cands) := by
  intro es
  induction es with
  | nil =>
    intro kept cands
    simp only [clipEdgesM, clipEdges, Prod.mk.injEq, Except.ok.injEq]
    tauto
  | cons e es ih =>
    intro kept cands
    rcases hm : clipEdgesM p n es with ⟨k0, c0, flag⟩
    constructor
    · intro h
      simp only [clipEdgesM, hm] at h
      cases flag
      · simp at h
      · rcases hu : update_edgeM e p n with ⟨oe, ov, okf⟩
        rw [hu] at h
        simp only [Prod.mk.injEq] at h
        obtain ⟨hk, hc, hflag⟩ := h
        subst hflag
        have hue := (update_edgeM_iff e p n oe ov).mp hu
        have hces := (ih k0 c0).mp hm
        simp only [clipEdges]
        rw [hces, hue]
        exact congrArg Except.ok (Prod.ext hk hc)
    · intro h
      obtain ⟨k0', c0', oe, ov, hes, hue, hk, hc⟩ := clipEdges_cons_ok p n e es kept cands h
      have hm' := (ih k0' c0').mpr hes
      have hu := (update_edgeM_iff e p n oe ov).mpr hue
      simp only [clipEdgesM, hm', hu]
      subst hk
      subst hc
      rfl

theorem processFaceM_iff (p n : Vec3) (f f2 : Face) (cap? : Option Edge) :
    processFaceM p n f = (f2, cap?, true) ↔ processFace p n f = .ok (f2, cap?) := by
  rcases hm : clipEdgesM p n f with ⟨kept, cands, flag⟩
  cases flag
  · constructor
    · intro h
      simp only [processFaceM, hm] at h
      simp at h
    · intro h
      simp only [processFace] at h
      rcases hce : clipEdges p n f with err | ⟨kept2, cands2⟩ <;> rw [hce] at h
      · cases h
      · have := (clipEdgesM_iff p n f kept2 cands2).mpr hce
        rw [hm] at this
        simp at this
  · have hce := (clipEdgesM_iff p n f kept cands).mp hm
    constructor
    · intro h
      simp only [processFaceM, hm] at h
      simp only [processFace]
      rw [hce]
      rcases cands with _ | ⟨a, _ | ⟨b, _ | ⟨c, t⟩⟩⟩
      · have h2 : ((kept, none, true) : Face × Option Edge × Bool) = (f2, cap?, true) := h
        simp only [Prod.mk.injEq] at h2
        rw [← h2.1, ← h2.2.1]
      · have h2 : ((kept, none, false) : Face × Option Edge × Bool) = (f2, cap?, true) := h
        simp at h2
      · have h2 : (if edge_lengthSq (a, b) > epsilon ^ 2 then
            ((kept ++ [(a, b)], some (a, b), true) : Face × Option Edge × Bool)
            else (kept, none, true)) = (f2, cap?, true) := h
        clear h
        split_ifs at h2 with hsep
        · simp only [Prod.mk.injEq] at h2
          rw [← h2.1, ← h2.2.1]
          exact if_pos hsep
        · simp only [Prod.mk.injEq] at h2
          rw [← h2.1, ← h2.2.1]
          exact if_neg hsep
      · have h2 : ((kept, none, false) : Face × Option Edge × Bool) = (f2, cap?, true) := h
        simp at h2
    · intro h
      simp only [processFace] at h
      rw [hce] at h
      simp only [processFaceM, hm]
      rcases cands with _ | ⟨a, _ | ⟨b, _ | ⟨c, t⟩⟩⟩
      · simp only [Except.ok.injEq, Prod.mk.injEq] at h
        rw [← h.1, ← h.2]
      · cases h
      · have h2 : (if edge_lengthSq (a, b) > epsilon ^ 2 then
            (Except.ok (kept ++ [(a, b)], some (a, b)) : Except GeomError (Face × Option Edge))
            else .ok (kept, none)) = .ok (f2, cap?) := h
        clear h
        split_ifs at h2 with hsep
        · simp only [Except.ok.injEq, Prod.mk.injEq] at h2
          rw [← h2.1, ← h2.2]
          exact if_pos hsep
        · simp only [Except.ok.injEq, Prod.mk.injEq] at h2
          rw [← h2.1, ← h2.2]
          exact if_neg hsep
      · cases h

theorem clipFacesM_iff (p n : Vec3) :
    ∀ (P : List Face) faces caps,
      clipFacesM p n P = (faces, caps, true) ↔ clipFaces p n P = .ok (faces, caps) := by
  intro P
  induction P with
  | nil =>
    intro faces caps
    simp only [clipFacesM, clipFaces, Prod.mk.injEq, Except.ok.injEq]
    tauto
  | cons f fs ih =>
    intro faces caps
    rcases hm : clipFacesM p n fs with ⟨fs0, caps0, flag⟩
    constructor
    · intro h
      simp only [clipFacesM, hm] at h
      cases flag
      · simp at h
      · rcases hq : processFaceM p n f with ⟨f2, cap?, okf⟩
        rw [hq] at h
        cases okf
        · simp at h
        · have hpf := (processFaceM_iff p n f f2 cap?).mp hq
          have hfs := (ih fs0 caps0).mp hm
          cases cap? with
          | none =>
            have h2 : (((if f2 = [] then fs0 else f2 :: fs0) : List Face), caps0, true) =
                (faces, caps, true) := h
            simp only [Prod.mk.injEq] at h2
            simp only [clipFaces]
            rw [hfs, hpf]
            exact congrArg Except.ok (Prod.ext h2.1 h2.2.1)
          | some c =>
            have h2 : (((if f2 = [] then fs0 else f2 :: fs0) : List Face), caps0 ++ [c], true) =
                (faces, caps, true) := h
            simp only [Prod.mk.injEq] at h2
            simp only [clipFaces]
            rw [hfs, hpf]
            exact congrArg Except.ok (Prod.ext h2.1 h2.2.1)
    · intro h
      obtain ⟨fs0', caps0', f2, cap?, hfs, hpf, hfc, hcp⟩ :=
        clipFaces_cons_ok p n f fs faces caps h
      have hm' := (ih fs0' caps0').mpr hfs
      have hq := (processFaceM_iff p n f f2 cap?).mpr hpf
      simp only [clipFacesM, hm', hq]
      subst hfc
      subst hcp
      rfl

/-- **C8 (amended).**  `clipMut` (the in-place run) succeeds exactly
when the functional `clip` does, and then the state it leaves is the
fully valid new state; the fatal cases are the enumerated invariant
violations (`shortEdge`, `badCapCount`), and on such a failure the
in-place state may be partially modified (see `clip_atomic_cex`), so the
operation is atomic only on success. -/
theorem clipMut_agrees (P : Polyhedron) (p n : Vec3) (Q : Polyhedron) :
    clipMut P p n = (Q, true) ↔ clip P p n = .ok Q := by
  rcases hm : clipFacesM p n P with ⟨faces, caps, flag⟩
  cases flag
  · constructor
    · intro h
      simp only [clipMut, hm] at h
      simp at h
    · intro h
      simp only [clip] at h
      rcases hcf : clipFaces p n P with err | ⟨faces2, caps2⟩ <;> rw [hcf] at h
      · cases h
      · have := (clipFacesM_iff p n P faces2 caps2).mpr hcf
        rw [hm] at this
        simp at this
  · have hcf := (clipFacesM_iff p n P faces caps).mp hm
    constructor
    · intro h
      simp only [clipMut, hm] at h
      have h2 : (((if caps.length > 2 then faces ++ [caps] else faces) : Polyhedron), true) =
          (Q, true) := h
      simp only [Prod.mk.injEq] at h2
      simp only [clip]
      rw [hcf]
      exact congrArg Except.ok h2.1
    · intro h
      simp only [clip] at h
      rw [hcf] at h
      have h2 : (Except.ok (if caps.length > 2 then faces ++ [caps] else faces) :
          Except GeomError Polyhedron) = .ok Q := h
      simp only [Except.ok.injEq] at h2
      simp only [clipMut, hm]
      exact congrArg (fun x => (x, true)) h2

/-- Witness for C8: the in-place run of the documented first clip
succeeds and agrees with the functional model. -/
theorem clipMut_agrees_app : clip tetra0 (1/2, 0, 0) (1, 0, 0) = .ok P1lit :=
  (clipMut_agrees tetra0 (1/2, 0, 0) (1, 0, 0) P1lit).mp (by decide)

end FEdensity
